import Mathlib

/-!
Verification of the PageRank power-iteration core of this repository
(`src/pagerank.py`, and its packaged twin `src/src/pagerank/__init__.py`).

The Python code works over pandas objects.  We embed it shallowly over ℚ:

* The sparse input graph `Dict[str, Dict[str, float]]` becomes an
  association list `Graph := List (String × List (String × ℚ))`.
* `pd.DataFrame(transition_weights)` places the *outer* keys (sources) as
  columns and the *inner* keys (targets) as rows, so the cell at row `t`,
  column `s` holds the weight of the edge `s → t`.  Together with
  `__make_square`'s zero fill this is the total matrix
  `make_square g t s = edge_weight g s t`.
* A pandas `Series` (the iteration state) becomes an association list
  `St := List (String × ℚ)` keyed by the node list, in order.
* Float arithmetic becomes exact rational arithmetic.  The convergence
  test `math.sqrt(delta.dot(delta)) < epsilon` is embedded without the
  square root as `0 < epsilon ∧ delta.dot(delta) < epsilon²`, which is
  equivalent over the reals because `delta.dot(delta) ≥ 0`
  (lemma `sqrt_lt_iff_sq_cond` below).
-/

set_option allowUnsafeReducibility true in
attribute [semireducible] Rat.add Rat.mul Rat.sub Rat.inv Rat.div

abbrev Node := String

/-- Sparse weighted graph: the nested-dict input `source -> target -> weight`. -/
abbrev Graph := List (Node × List (Node × ℚ))

/-- Iteration state: a pandas `Series`, i.e. values keyed by node labels. -/
abbrev St := List (Node × ℚ)

/-- A (square) matrix of the pipeline, as a total function on labels.
The first argument is the row label, the second the column label. -/
abbrev TMatrix := Node → Node → ℚ

/-- Weight of the edge `s → t` recorded in the sparse graph, `0` if absent
(the DataFrame cell at column `s`, row `t`, after `fillna(0.0)`). -/
def edge_weight (g : Graph) (s t : Node) : ℚ :=
  match g.lookup s with
  | some adj => (adj.lookup t).getD 0
  | none => 0

/-- `__extract_nodes`: all node labels appearing as a column (outer key,
i.e. source) or a row (inner key, i.e. target), without duplicates. -/
def extract_nodes (g : Graph) : List Node :=
  (g.map Prod.fst ++
    g.foldr (fun (p : Node × List (Node × ℚ)) acc => p.2.map Prod.fst ++ acc)
      []).dedup

/-- `pd.DataFrame(transition_weights)` followed by `__make_square` with
default `0.0`: the square matrix over the node set.  Outer dict keys are
DataFrame *columns*, so the entry at row `t`, column `s` is the weight of
the edge `s → t`. -/
def make_square (g : Graph) : TMatrix := fun t s => edge_weight g s t

/-- Sum of the row `t` of the matrix over the node list (pandas
`matrix.sum(axis=1)` at label `t`). -/
def row_sum (nodes : List Node) (m : TMatrix) (t : Node) : ℚ :=
  (nodes.map (m t)).sum

/-- `__ensure_rows_positive`: every row whose sum is exactly `0.0` is
overwritten with the constant `1.0`; all other rows are kept. -/
def ensure_rows_positive (nodes : List Node) (m : TMatrix) : TMatrix :=
  fun t s => if row_sum nodes m t = 0 then 1 else m t s

/-- `__normalize_rows`: divide each row by its sum. -/
def normalize_rows (nodes : List Node) (m : TMatrix) : TMatrix :=
  fun t s => m t s / row_sum nodes m t

/-- `__start_state` (after its emptiness check): the uniform series
`1.0 / len(nodes)` over the node set. -/
def start_state (nodes : List Node) : St :=
  nodes.map (fun x => (x, 1 / (nodes.length : ℚ)))

/-- `__integrate_random_surfer`:
`transition_probabilities * (1.0 - rsp) + alpha` with
`alpha = 1.0 / len(nodes) * rsp`, element-wise. -/
def integrate_random_surfer (nodes : List Node) (m : TMatrix) (rsp : ℚ) :
    TMatrix :=
  fun t s => m t s * (1 - rsp) + 1 / (nodes.length : ℚ) * rsp

/-- One component of `state.dot(transition_probabilities)`: the value of the
new series at column label `s` is `Σ_t state[t] * m[t][s]`. -/
def dot_step (st : St) (m : TMatrix) (s : Node) : ℚ :=
  (st.map (fun p => p.2 * m p.1 s)).sum

/-- `state.dot(transition_probabilities)`: the new series, keyed by the
columns of the matrix (the node list). -/
def step_state (nodes : List Node) (m : TMatrix) (st : St) : St :=
  nodes.map (fun s => (s, dot_step st m s))

/-- `delta = state - old_state`, label-aligned (both series are keyed by the
node list in the same order). -/
def delta_series (new old : St) : List ℚ :=
  List.zipWith (fun p q => p.2 - q.2) new old

/-- `delta.dot(delta)`, the square of `__euclidean_norm delta`. -/
def euclidean_norm_sq (l : List ℚ) : ℚ :=
  (l.map (fun x => x * x)).sum

/-- The `for _ in range(max_iterations)` loop of `power_iteration`, with the
`break` recorded in the second component (`true` iff the loop stopped because
the convergence test succeeded).  The test
`0 < eps ∧ delta.dot(delta) < eps²` is the exact-arithmetic rendering of
`math.sqrt(delta.dot(delta)) < eps`. -/
def loopF (nodes : List Node) (m : TMatrix) (eps : ℚ) :
    ℕ → St → St × Bool
  | 0, st => (st, false)
  | k+1, st =>
    let new := step_state nodes m st
    if 0 < eps ∧ euclidean_norm_sq (delta_series new st) < eps * eps then
      (new, true)
    else
      loopF nodes m eps k new

/-- The message of the `ValueError` raised by `__start_state`. -/
def error_message : String := "There must be at least one node."

/-- The mixed transition matrix built by `power_iteration` before the loop:
square up, fix zero-sum rows, normalize rows, then blend in the random
surfer. -/
def pipeline_matrix (g : Graph) (rsp : ℚ) : TMatrix :=
  integrate_random_surfer (extract_nodes g)
    (normalize_rows (extract_nodes g)
      (ensure_rows_positive (extract_nodes g) (make_square g))) rsp

/-- The full loop run of `power_iteration` (final state and whether the
`break` fired). -/
def power_iteration_run (g : Graph) (rsp eps : ℚ) (max_iterations : ℕ) :
    St × Bool :=
  loopF (extract_nodes g) (pipeline_matrix g rsp) eps max_iterations
    (start_state (extract_nodes g))

/-- `power_iteration` from `src/pagerank.py`: returns the final state
series, or the `ValueError` of `__start_state` when the node set is empty.
Defaults in the source: `rsp = 0.15`, `epsilon = 0.00001`,
`max_iterations = 1000`. -/
def power_iteration (g : Graph) (rsp eps : ℚ) (max_iterations : ℕ) :
    Except String St :=
  if (extract_nodes g).length = 0 then
    Except.error error_message
  else
    Except.ok (power_iteration_run g rsp eps max_iterations).1

/-- Value of a returned series at a label (`0` for an error or a missing
label); used to state concrete input/output facts. -/
def result_value (r : Except String St) (x : Node) : ℚ :=
  match r with
  | Except.ok st => (st.lookup x).getD 0
  | Except.error _ => 0

/-- Total outgoing weight of node `x` in the sparse graph. -/
def out_weight (g : Graph) (x : Node) : ℚ :=
  ((extract_nodes g).map (fun t => edge_weight g x t)).sum

/-- Total incoming weight of node `x` in the sparse graph. -/
def in_weight (g : Graph) (x : Node) : ℚ :=
  ((extract_nodes g).map (fun s => edge_weight g s x)).sum

/-- All weights listed in the sparse graph are non-negative (the spec's data
model: "a non-negative real weight"). -/
def valid_graph (g : Graph) : Prop := ∀ p ∈ g, ∀ q ∈ p.2, 0 ≤ q.2

instance (g : Graph) : Decidable (valid_graph g) :=
  inferInstanceAs (Decidable (∀ p ∈ g, ∀ q ∈ p.2, 0 ≤ q.2))

/-- State of the solver after `j` multiplications by the mixed matrix. -/
def state_at (g : Graph) (rsp : ℚ) (j : ℕ) : St :=
  (step_state (extract_nodes g) (pipeline_matrix g rsp))^[j]
    (start_state (extract_nodes g))

/-- The convergence test succeeds at iteration `j ≥ 1`: the Euclidean norm
of `state_at j - state_at (j-1)` is below `eps` (stated squared). -/
def conv_at (g : Graph) (rsp eps : ℚ) (j : ℕ) : Prop :=
  0 < eps ∧
    euclidean_norm_sq (delta_series (state_at g rsp j) (state_at g rsp (j - 1)))
      < eps * eps

namespace Pkg

/-!
Embedding of the packaged implementation `src/src/pagerank/__init__.py`.
Its function bodies are the same pandas computations as `src/pagerank.py`
(the only textual differences are docstrings, type annotations, and
`dict.fromkeys(nodes, start_prob)` in place of a dict comprehension, which
builds the same mapping), so the embedded definitions coincide shape for
shape with the ones above.
-/

/-- `__extract_nodes` of the packaged module. -/
def extract_nodes (g : Graph) : List Node :=
  (g.map Prod.fst ++
    g.foldr (fun (p : Node × List (Node × ℚ)) acc => p.2.map Prod.fst ++ acc)
      []).dedup

/-- DataFrame construction plus `__make_square` of the packaged module. -/
def make_square (g : Graph) : TMatrix := fun t s => edge_weight g s t

/-- `__ensure_rows_positive` of the packaged module. -/
def ensure_rows_positive (nodes : List Node) (m : TMatrix) : TMatrix :=
  fun t s => if row_sum nodes m t = 0 then 1 else m t s

/-- `__normalize_rows` of the packaged module. -/
def normalize_rows (nodes : List Node) (m : TMatrix) : TMatrix :=
  fun t s => m t s / row_sum nodes m t

/-- `__start_state` of the packaged module (via `dict.fromkeys`). -/
def start_state (nodes : List Node) : St :=
  nodes.map (fun x => (x, 1 / (nodes.length : ℚ)))

/-- `__integrate_random_surfer` of the packaged module. -/
def integrate_random_surfer (nodes : List Node) (m : TMatrix) (rsp : ℚ) :
    TMatrix :=
  fun t s => m t s * (1 - rsp) + 1 / (nodes.length : ℚ) * rsp

/-- The iteration loop of the packaged `power_iteration`. -/
def loopF (nodes : List Node) (m : TMatrix) (eps : ℚ) :
    ℕ → St → St × Bool
  | 0, st => (st, false)
  | k+1, st =>
    let new := step_state nodes m st
    if 0 < eps ∧ euclidean_norm_sq (delta_series new st) < eps * eps then
      (new, true)
    else
      loopF nodes m eps k new

/-- `power_iteration` of `src/src/pagerank/__init__.py`. -/
def power_iteration (g : Graph) (rsp eps : ℚ) (max_iterations : ℕ) :
    Except String St :=
  if (extract_nodes g).length = 0 then
    Except.error error_message
  else
    Except.ok
      (loopF (extract_nodes g)
        (integrate_random_surfer (extract_nodes g)
          (normalize_rows (extract_nodes g)
            (ensure_rows_positive (extract_nodes g) (make_square g))) rsp)
        eps max_iterations (start_state (extract_nodes g))).1

end Pkg

/-! ### Helper lemmas about list sums -/

theorem sum_map_add_split {α : Type} (l : List α) (f h : α → ℚ) :
    (l.map (fun x => f x + h x)).sum = (l.map f).sum + (l.map h).sum := by
  induction l with
  | nil => simp
  | cons a t ih => simp [ih]; ring

theorem sum_map_mul_right {α : Type} (l : List α) (f : α → ℚ) (c : ℚ) :
    (l.map (fun x => f x * c)).sum = (l.map f).sum * c := by
  induction l with
  | nil => simp
  | cons a t ih => simp [ih]; ring

theorem sum_map_mul_left {α : Type} (l : List α) (f : α → ℚ) (c : ℚ) :
    (l.map (fun x => c * f x)).sum = c * (l.map f).sum := by
  induction l with
  | nil => simp
  | cons a t ih => simp [ih]; ring

theorem sum_map_const_mul {α : Type} (l : List α) (c : ℚ) :
    (l.map (fun _ => c)).sum = (l.length : ℚ) * c := by
  induction l with
  | nil => simp
  | cons a t ih => simp [ih]; ring

theorem sum_map_div_right {α : Type} (l : List α) (f : α → ℚ) (c : ℚ) :
    (l.map (fun x => f x / c)).sum = (l.map f).sum / c := by
  induction l with
  | nil => simp
  | cons a t ih => simp [ih]; ring

theorem sum_map_nonneg {α : Type} (l : List α) (f : α → ℚ)
    (h : ∀ x ∈ l, 0 ≤ f x) : 0 ≤ (l.map f).sum := by
  induction l with
  | nil => simp
  | cons a t ih =>
    simp only [List.map_cons, List.sum_cons]
    have h1 := h a (List.mem_cons_self a t)
    have h2 := ih (fun x hx => h x (List.mem_cons_of_mem a hx))
    linarith

theorem sum_map_swap {α β : Type} (l1 : List α) (l2 : List β)
    (f : α → β → ℚ) :
    (l1.map (fun a => (l2.map (f a)).sum)).sum
      = (l2.map (fun b => (l1.map (fun a => f a b)).sum)).sum := by
  induction l1 with
  | nil => simp [sum_map_const_mul]
  | cons a t ih =>
    simp only [List.map_cons, List.sum_cons, ih, sum_map_add_split]

/-- Justification of the embedded convergence test: for a non-negative
dot product `d`, the source's `math.sqrt(d) < eps` is equivalent to
`0 < eps ∧ d < eps * eps`. -/
theorem sqrt_lt_iff_sq_cond (d eps : ℚ) (_hd : 0 ≤ d) :
    Real.sqrt (d : ℝ) < (eps : ℝ) ↔ (0 < eps ∧ d < eps * eps) := by
  constructor
  · intro h
    have heps : (0:ℝ) < (eps : ℝ) := lt_of_le_of_lt (Real.sqrt_nonneg _) h
    have heps' : (0:ℚ) < eps := by exact_mod_cast heps
    refine ⟨heps', ?_⟩
    have hd2 : ((d : ℝ)) < (eps : ℝ) ^ 2 := (Real.sqrt_lt' heps).mp h
    have : (d : ℝ) < ((eps * eps : ℚ) : ℝ) := by push_cast; nlinarith
    exact_mod_cast this
  · rintro ⟨heps, hlt⟩
    have heps' : (0:ℝ) < (eps : ℝ) := by exact_mod_cast heps
    rw [Real.sqrt_lt' heps']
    have : (d : ℝ) < ((eps * eps : ℚ) : ℝ) := by exact_mod_cast hlt
    push_cast at this ⊢
    nlinarith

/-! ### Lemmas about the pipeline matrices -/

theorem lookup_mem {β : Type} {l : List (Node × β)} {a : Node} {b : β}
    (h : l.lookup a = some b) : (a, b) ∈ l := by
  induction l with
  | nil => simp [List.lookup] at h
  | cons p t ih =>
    obtain ⟨k, v⟩ := p
    by_cases hk : a = k
    · subst hk
      simp [List.lookup] at h
      subst h
      exact List.mem_cons_self _ _
    · have hk2 : (a == k) = false := beq_eq_false_iff_ne.mpr hk
      simp [List.lookup, hk2] at h
      exact List.mem_cons_of_mem _ (ih h)

theorem edge_weight_nonneg (g : Graph) (hval : valid_graph g) (s t : Node) :
    0 ≤ edge_weight g s t := by
  unfold edge_weight
  cases hg : g.lookup s with
  | none => simp
  | some adj =>
    show 0 ≤ (adj.lookup t).getD 0
    cases ha : adj.lookup t with
    | none => simp [ha]
    | some w =>
      simp only [Option.getD_some]
      exact hval (s, adj) (lookup_mem hg) (t, w) (lookup_mem ha)

theorem row_sum_ensure (nodes : List Node) (m : TMatrix) (t : Node) :
    row_sum nodes (ensure_rows_positive nodes m) t
      = if row_sum nodes m t = 0 then (nodes.length : ℚ)
        else row_sum nodes m t := by
  have hfun : ensure_rows_positive nodes m t
      = fun s => if row_sum nodes m t = 0 then 1 else m t s := rfl
  show (nodes.map (ensure_rows_positive nodes m t)).sum = _
  rw [hfun]
  by_cases hc : row_sum nodes m t = 0
  · simp [hc, sum_map_const_mul]
  · simp [hc]
    rfl

theorem ensure_rows_positive_nonneg (nodes : List Node) (m : TMatrix)
    (t s : Node) (h : 0 ≤ m t s) : 0 ≤ ensure_rows_positive nodes m t s := by
  unfold ensure_rows_positive
  split
  · norm_num
  · exact h

theorem row_sum_ensure_pos (nodes : List Node) (m : TMatrix) (t : Node)
    (hne : nodes ≠ []) (hnn : ∀ s ∈ nodes, 0 ≤ m t s) :
    0 < row_sum nodes (ensure_rows_positive nodes m) t := by
  rw [row_sum_ensure]
  by_cases hc : row_sum nodes m t = 0
  · simp only [hc, if_pos]
    exact_mod_cast List.length_pos.mpr hne
  · simp only [hc, if_neg, ite_false]
    exact lt_of_le_of_ne (sum_map_nonneg nodes (m t) hnn) (Ne.symm hc)

theorem normalize_rows_row_sum (nodes : List Node) (m : TMatrix) (t : Node)
    (h : row_sum nodes m t ≠ 0) :
    row_sum nodes (normalize_rows nodes m) t = 1 := by
  show (nodes.map fun s => m t s / row_sum nodes m t).sum = 1
  rw [sum_map_div_right]
  exact div_self h

theorem integrate_row_sum (nodes : List Node) (m : TMatrix) (rsp : ℚ)
    (t : Node) (hne : nodes ≠ []) (h : row_sum nodes m t = 1) :
    row_sum nodes (integrate_random_surfer nodes m rsp) t = 1 := by
  have hn : ((nodes.length : ℚ)) ≠ 0 := by
    have h2 : nodes.length ≠ 0 := fun h2 => hne (List.length_eq_zero.mp h2)
    exact_mod_cast h2
  show (nodes.map fun s =>
    m t s * (1 - rsp) + 1 / (nodes.length : ℚ) * rsp).sum = 1
  rw [sum_map_add_split, sum_map_mul_right, sum_map_const_mul]
  have h2 : (nodes.map (m t)).sum = 1 := h
  rw [h2]
  field_simp

theorem pipeline_row_sum_one (g : Graph) (rsp : ℚ) (hval : valid_graph g)
    (hne : extract_nodes g ≠ []) (t : Node) :
    row_sum (extract_nodes g) (pipeline_matrix g rsp) t = 1 := by
  have hms : ∀ s ∈ extract_nodes g, 0 ≤ make_square g t s :=
    fun s _ => edge_weight_nonneg g hval s t
  have h1 : 0 < row_sum (extract_nodes g)
      (ensure_rows_positive (extract_nodes g) (make_square g)) t :=
    row_sum_ensure_pos _ _ _ hne hms
  exact integrate_row_sum _ _ _ _ hne
    (normalize_rows_row_sum _ _ _ (ne_of_gt h1))

theorem pipeline_nonneg (g : Graph) (rsp : ℚ) (hval : valid_graph g)
    (h0 : 0 ≤ rsp) (h1 : rsp ≤ 1) (t s : Node) :
    0 ≤ pipeline_matrix g rsp t s := by
  have he : 0 ≤ ensure_rows_positive (extract_nodes g) (make_square g) t s :=
    ensure_rows_positive_nonneg _ _ _ _ (edge_weight_nonneg g hval s t)
  have hrs : 0 ≤ row_sum (extract_nodes g)
      (ensure_rows_positive (extract_nodes g) (make_square g)) t :=
    sum_map_nonneg _ _ (fun c _ =>
      ensure_rows_positive_nonneg _ _ _ _ (edge_weight_nonneg g hval c t))
  have hnorm : 0 ≤ normalize_rows (extract_nodes g)
      (ensure_rows_positive (extract_nodes g) (make_square g)) t s :=
    div_nonneg he hrs
  show 0 ≤ normalize_rows (extract_nodes g)
      (ensure_rows_positive (extract_nodes g) (make_square g)) t s * (1 - rsp)
    + 1 / (((extract_nodes g).length : ℚ)) * rsp
  have hinv : (0:ℚ) ≤ 1 / (((extract_nodes g).length : ℚ)) :=
    one_div_nonneg.mpr (Nat.cast_nonneg _)
  have := mul_nonneg hnorm (by linarith : (0:ℚ) ≤ 1 - rsp)
  have := mul_nonneg hinv h0
  linarith

/-! ### Lemmas about one iteration step and the loop -/

theorem step_state_keys (nodes : List Node) (m : TMatrix) (st : St) :
    (step_state nodes m st).map Prod.fst = nodes := by
  simp [step_state, List.map_map, Function.comp_def]

theorem step_state_nonneg (nodes : List Node) (m : TMatrix) (st : St)
    (hM : ∀ t s, 0 ≤ m t s) (hst : ∀ p ∈ st, 0 ≤ p.2) :
    ∀ p ∈ step_state nodes m st, 0 ≤ p.2 := by
  intro p hp
  simp only [step_state, List.mem_map] at hp
  obtain ⟨s, _, rfl⟩ := hp
  exact sum_map_nonneg st (fun q => q.2 * m q.1 s)
    (fun q hq => mul_nonneg (hst q hq) (hM q.1 s))

theorem dot_sum_swap (nodes : List Node) (m : TMatrix) (st : St) :
    (nodes.map (fun s => dot_step st m s)).sum
      = (st.map (fun p => p.2 * row_sum nodes m p.1)).sum := by
  induction st with
  | nil => simp [dot_step, sum_map_const_mul]
  | cons q t ih =>
    have hpt : ∀ s, dot_step (q :: t) m s = q.2 * m q.1 s + dot_step t m s := by
      intro s; simp [dot_step]
    simp only [hpt]
    rw [sum_map_add_split, sum_map_mul_left, ih]
    simp [row_sum]

theorem step_state_sum (nodes : List Node) (m : TMatrix) (st : St)
    (hrows : ∀ t, row_sum nodes m t = 1) :
    ((step_state nodes m st).map Prod.snd).sum = (st.map Prod.snd).sum := by
  have h1 : (step_state nodes m st).map Prod.snd
      = nodes.map (fun s => dot_step st m s) := by
    simp [step_state, List.map_map, Function.comp_def]
  rw [h1, dot_sum_swap]
  have h2 : ∀ p : Node × ℚ, p.2 * row_sum nodes m p.1 = p.2 := by
    intro p; rw [hrows]; ring
  simp only [h2]

theorem start_state_keys (nodes : List Node) :
    (start_state nodes).map Prod.fst = nodes := by
  simp [start_state, List.map_map, Function.comp_def]

theorem start_state_nonneg (nodes : List Node) :
    ∀ p ∈ start_state nodes, 0 ≤ p.2 := by
  intro p hp
  simp only [start_state, List.mem_map] at hp
  obtain ⟨x, _, rfl⟩ := hp
  exact one_div_nonneg.mpr (Nat.cast_nonneg _)

theorem start_state_sum (nodes : List Node) (hne : nodes ≠ []) :
    ((start_state nodes).map Prod.snd).sum = 1 := by
  have hn : ((nodes.length : ℚ)) ≠ 0 := by
    have h2 : nodes.length ≠ 0 := fun h2 => hne (List.length_eq_zero.mp h2)
    exact_mod_cast h2
  have h1 : (start_state nodes).map Prod.snd
      = nodes.map (fun _ => 1 / (nodes.length : ℚ)) := by
    simp [start_state, List.map_map, Function.comp_def]
  rw [h1, sum_map_const_mul]
  field_simp

theorem loopF_invariant (nodes : List Node) (m : TMatrix) (eps : ℚ)
    (hM : ∀ t s, 0 ≤ m t s) (hrows : ∀ t, row_sum nodes m t = 1) :
    ∀ (k : ℕ) (st : St),
      st.map Prod.fst = nodes → (∀ p ∈ st, 0 ≤ p.2) →
      (st.map Prod.snd).sum = 1 →
      ((loopF nodes m eps k st).1.map Prod.fst = nodes
        ∧ (∀ p ∈ (loopF nodes m eps k st).1, 0 ≤ p.2)
        ∧ ((loopF nodes m eps k st).1.map Prod.snd).sum = 1) := by
  intro k
  induction k with
  | zero => intro st h1 h2 h3; exact ⟨h1, h2, h3⟩
  | succ k ih =>
    intro st h1 h2 h3
    have hnew1 := step_state_keys nodes m st
    have hnew2 := step_state_nonneg nodes m st hM h2
    have hnew3 : ((step_state nodes m st).map Prod.snd).sum = 1 := by
      rw [step_state_sum nodes m st hrows]; exact h3
    simp only [loopF]
    split
    · exact ⟨hnew1, hnew2, hnew3⟩
    · exact ih (step_state nodes m st) hnew1 hnew2 hnew3

theorem delta_series_self_norm_sq (st : St) :
    euclidean_norm_sq (delta_series st st) = 0 := by
  induction st with
  | nil => rfl
  | cons p t ih =>
    simp only [delta_series, euclidean_norm_sq, List.zipWith_cons_cons,
      List.map_cons, List.sum_cons] at ih ⊢
    rw [ih]
    ring

/-- Unrolling of the loop from the state after `o` multiplications: it
returns the state after some `T` multiplications, `T` being the first index
in `(o, o+k]` whose convergence test fires, or `o+k` if none does; the
second component records whether it fired. -/
theorem loopF_stop_spec (g : Graph) (rsp eps : ℚ) (k o : ℕ) :
    ∃ T b,
      loopF (extract_nodes g) (pipeline_matrix g rsp) eps k (state_at g rsp o)
          = (state_at g rsp T, b)
        ∧ o ≤ T ∧ T ≤ o + k
        ∧ (∀ j, o < j → j < T → ¬ conv_at g rsp eps j)
        ∧ (b = true → (o < T ∧ conv_at g rsp eps T))
        ∧ (b = false →
            (T = o + k ∧ ∀ j, o < j → j ≤ T → ¬ conv_at g rsp eps j)) := by
  induction k generalizing o with
  | zero =>
    refine ⟨o, false, rfl, le_refl o, by omega, ?_, ?_, ?_⟩
    · intro j hj1 hj2
      exact absurd (hj1.trans hj2) (lt_irrefl o)
    · intro hb; cases hb
    · intro _
      refine ⟨by omega, ?_⟩
      intro j hj1 hj2
      exact absurd (lt_of_lt_of_le hj1 hj2) (lt_irrefl o)
  | succ k ih =>
    have hnew : step_state (extract_nodes g) (pipeline_matrix g rsp)
        (state_at g rsp o) = state_at g rsp (o + 1) := by
      rw [state_at, state_at, Function.iterate_succ_apply']
    by_cases hc : (0 < eps ∧ euclidean_norm_sq
        (delta_series (state_at g rsp (o + 1)) (state_at g rsp o)) < eps * eps)
    · refine ⟨o + 1, true, ?_, by omega, by omega, ?_, ?_, ?_⟩
      · simp only [loopF]
        rw [hnew, if_pos hc]
      · intro j hj1 hj2
        exact absurd (by omega : j < j) (lt_irrefl j)
      · intro _
        exact ⟨by omega, hc⟩
      · intro hb; cases hb
    · obtain ⟨T, b, hrun, hT1, hT2, hmin, hbt, hbf⟩ := ih (o + 1)
      refine ⟨T, b, ?_, by omega, by omega, ?_, ?_, ?_⟩
      · simp only [loopF]
        rw [hnew, if_neg hc]
        exact hrun
      · intro j hj1 hj2
        by_cases hj : j = o + 1
        · subst hj; exact hc
        · exact hmin j (by omega) hj2
      · intro hb
        obtain ⟨hlt, hcv⟩ := hbt hb
        exact ⟨by omega, hcv⟩
      · intro hb
        obtain ⟨hTe, hnone⟩ := hbf hb
        refine ⟨by omega, ?_⟩
        intro j hj1 hj2
        by_cases hj : j = o + 1
        · subst hj; exact hc
        · exact hnone j (by omega) hj2

/-! ### Claim theorems -/

/-- C1: for every valid (non-negative-weight) non-empty graph and every
`rsp ∈ [0,1]`, `power_iteration` succeeds with a series that has exactly
one entry per node of the input (sources and targets), all values
non-negative, summing exactly to `1` (exact rational arithmetic; "within
floating-point tolerance" in the spec). -/
theorem power_iteration_distribution (g : Graph) (rsp eps : ℚ)
    (max_iterations : ℕ) (hval : valid_graph g)
    (hne : extract_nodes g ≠ []) (h0 : 0 ≤ rsp) (h1 : rsp ≤ 1) :
    ∃ st, power_iteration g rsp eps max_iterations = Except.ok st
      ∧ st.map Prod.fst = extract_nodes g
      ∧ (∀ p ∈ st, 0 ≤ p.2)
      ∧ (st.map Prod.snd).sum = 1 := by
  have hM : ∀ t s, 0 ≤ pipeline_matrix g rsp t s :=
    fun t s => pipeline_nonneg g rsp hval h0 h1 t s
  have hrows : ∀ t, row_sum (extract_nodes g) (pipeline_matrix g rsp) t = 1 :=
    fun t => pipeline_row_sum_one g rsp hval hne t
  have hst := loopF_invariant (extract_nodes g) (pipeline_matrix g rsp) eps
    hM hrows max_iterations (start_state (extract_nodes g))
    (start_state_keys _) (start_state_nonneg _) (start_state_sum _ hne)
  refine ⟨(power_iteration_run g rsp eps max_iterations).1, ?_,
    hst.1, hst.2.1, hst.2.2⟩
  unfold power_iteration
  rw [if_neg (fun h => hne (List.length_eq_zero.mp h))]

/-- C3: the solver starts from the uniform vector, repeatedly multiplies
the state by the mixed matrix, stops at the first iteration `T ≥ 1` whose
convergence test (Euclidean norm of the difference below epsilon) fires,
and otherwise performs exactly `max_iterations` multiplications; in both
cases it returns the last computed state with no error. -/
theorem power_iteration_loop_spec (g : Graph) (rsp eps : ℚ)
    (max_iterations : ℕ) (hne : extract_nodes g ≠ []) :
    state_at g rsp 0
        = (extract_nodes g).map
            (fun x => (x, 1 / ((extract_nodes g).length : ℚ)))
      ∧ ∃ T, power_iteration g rsp eps max_iterations
            = Except.ok (state_at g rsp T)
        ∧ T ≤ max_iterations
        ∧ (∀ j, 1 ≤ j → j < T → ¬ conv_at g rsp eps j)
        ∧ ((∃ j, 1 ≤ j ∧ j ≤ max_iterations ∧ conv_at g rsp eps j) →
            (1 ≤ T ∧ conv_at g rsp eps T))
        ∧ ((¬ ∃ j, 1 ≤ j ∧ j ≤ max_iterations ∧ conv_at g rsp eps j) →
            T = max_iterations) := by
  constructor
  · rfl
  · obtain ⟨T, b, hrun, hT1, hT2, hmin, hbt, hbf⟩ :=
      loopF_stop_spec g rsp eps max_iterations 0
    refine ⟨T, ?_, by omega, fun j hj1 hj2 => hmin j hj1 hj2, ?_, ?_⟩
    · unfold power_iteration
      rw [if_neg (fun h => hne (List.length_eq_zero.mp h))]
      unfold power_iteration_run
      have h0 : start_state (extract_nodes g) = state_at g rsp 0 := rfl
      rw [h0, hrun]
    · rintro ⟨j, hj1, hj2, hjc⟩
      cases b with
      | true =>
        obtain ⟨hlt, hcv⟩ := hbt rfl
        exact ⟨by omega, hcv⟩
      | false =>
        obtain ⟨hTe, hnone⟩ := hbf rfl
        exact absurd hjc (hnone j (by omega) (by omega))
    · intro hno
      cases b with
      | false => have := (hbf rfl).1; omega
      | true =>
        obtain ⟨hlt, hcv⟩ := hbt rfl
        exact absurd ⟨T, by omega, by omega, hcv⟩ hno

/-- C4: `power_iteration` fails exactly when the node set derived from the
input is empty, and then with the `ValueError` message of `__start_state`;
for every non-empty node set it returns a result. -/
theorem power_iteration_error_iff (g : Graph) (rsp eps : ℚ)
    (max_iterations : ℕ) :
    ((∃ e, power_iteration g rsp eps max_iterations = Except.error e)
        ↔ extract_nodes g = [])
      ∧ (extract_nodes g = [] →
          power_iteration g rsp eps max_iterations
            = Except.error error_message) := by
  constructor
  · constructor
    · rintro ⟨e, he⟩
      by_contra hne
      unfold power_iteration at he
      rw [if_neg (fun h => hne (List.length_eq_zero.mp h))] at he
      exact Except.noConfusion he
    · intro h
      refine ⟨error_message, ?_⟩
      unfold power_iteration
      rw [if_pos (by rw [h]; rfl)]
  · intro h
    unfold power_iteration
    rw [if_pos (by rw [h]; rfl)]

/-- C6: with `rsp = 1` the mixed matrix is constant `1/N`, so for every
non-empty graph the solver returns exactly the uniform distribution `1/N`
per node, independent of the edge structure, for every epsilon and
iteration cap. -/
theorem power_iteration_rsp_one (g : Graph) (eps : ℚ) (max_iterations : ℕ)
    (hne : extract_nodes g ≠ []) :
    power_iteration g 1 eps max_iterations
      = Except.ok ((extract_nodes g).map
          (fun x => (x, 1 / ((extract_nodes g).length : ℚ)))) := by
  have hM : ∀ t s, pipeline_matrix g 1 t s
      = 1 / (((extract_nodes g).length : ℚ)) := by
    intro t s
    show normalize_rows (extract_nodes g)
        (ensure_rows_positive (extract_nodes g) (make_square g)) t s * (1 - 1)
      + 1 / (((extract_nodes g).length : ℚ)) * 1
      = 1 / (((extract_nodes g).length : ℚ))
    ring
  have hdot : ∀ s, dot_step (start_state (extract_nodes g))
      (pipeline_matrix g 1) s = 1 / (((extract_nodes g).length : ℚ)) := by
    intro s
    show ((start_state (extract_nodes g)).map
      (fun p => p.2 * pipeline_matrix g 1 p.1 s)).sum = _
    simp only [hM]
    rw [sum_map_mul_right, start_state_sum _ hne, one_mul]
  have hstep : step_state (extract_nodes g) (pipeline_matrix g 1)
      (start_state (extract_nodes g)) = start_state (extract_nodes g) := by
    show (extract_nodes g).map
        (fun s => (s, dot_step (start_state (extract_nodes g))
          (pipeline_matrix g 1) s))
      = (extract_nodes g).map
        (fun x => (x, 1 / (((extract_nodes g).length : ℚ))))
    have hfun : (fun s => (s, dot_step (start_state (extract_nodes g))
        (pipeline_matrix g 1) s))
        = fun x : Node => (x, 1 / (((extract_nodes g).length : ℚ))) := by
      funext s
      rw [hdot s]
    rw [hfun]
  have hloop : ∀ k, (loopF (extract_nodes g) (pipeline_matrix g 1) eps k
      (start_state (extract_nodes g))).1 = start_state (extract_nodes g) := by
    intro k
    induction k with
    | zero => rfl
    | succ k ih =>
      simp only [loopF]
      rw [hstep]
      split
      · rfl
      · exact ih
  unfold power_iteration
  rw [if_neg (fun h => hne (List.length_eq_zero.mp h))]
  unfold power_iteration_run
  rw [hloop]
  rfl

/-- C9: with `max_iterations = 0` the loop body never runs and the solver
returns the initial uniform distribution `1/N` per node, with no error. -/
theorem power_iteration_zero_iterations (g : Graph) (rsp eps : ℚ)
    (hne : extract_nodes g ≠ []) :
    power_iteration g rsp eps 0
      = Except.ok ((extract_nodes g).map
          (fun x => (x, 1 / ((extract_nodes g).length : ℚ)))) := by
  unfold power_iteration
  rw [if_neg (fun h => hne (List.length_eq_zero.mp h))]
  rfl

/-- C2 counterexample: in the graph `{"A": {"B": 1}}`, node `B` has zero
total outgoing weight, yet its row of the dangling correction's output is
not a constant positive row (its entry in column `B` is `0`); and node `A`
has outgoing weight `1 ≠ 0`, yet its row is the one that gets overwritten.
The DataFrame rows index *targets*, so row sums are incoming, not outgoing,
weights. -/
theorem dangling_outgoing_counterexample :
    out_weight [("A", [("B", (1:ℚ))])] "B" = 0
    ∧ ¬ (0 < ensure_rows_positive (extract_nodes [("A", [("B", (1:ℚ))])])
          (make_square [("A", [("B", (1:ℚ))])]) "B" "B")
    ∧ out_weight [("A", [("B", (1:ℚ))])] "A" ≠ 0
    ∧ ensure_rows_positive (extract_nodes [("A", [("B", (1:ℚ))])])
          (make_square [("A", [("B", (1:ℚ))])]) "A" "A"
        ≠ make_square [("A", [("B", (1:ℚ))])] "A" "A" := by
  refine ⟨by decide, by decide, by decide, by decide⟩

/-- C2 (amended): `__ensure_rows_positive` replaces exactly the rows of the
constructed matrix that sum to zero; since the DataFrame row of a node
holds its *incoming* weights, a node's row is overwritten with the constant
`1` in every column exactly when its total incoming weight is zero, and is
left untouched otherwise (in particular a node whose only incoming weight
is a self-loop is untouched). -/
theorem ensure_rows_zero_in_weight (g : Graph) (x s : Node)
    (_hx : x ∈ extract_nodes g) :
    (in_weight g x = 0 →
      ensure_rows_positive (extract_nodes g) (make_square g) x s = 1)
    ∧ (in_weight g x ≠ 0 →
      ensure_rows_positive (extract_nodes g) (make_square g) x s
        = make_square g x s) := by
  have hr : row_sum (extract_nodes g) (make_square g) x = in_weight g x := rfl
  constructor
  · intro h
    unfold ensure_rows_positive
    rw [if_pos (hr.trans h)]
  · intro h
    unfold ensure_rows_positive
    rw [if_neg (fun hc => h (hr.symm.trans hc))]

/-- C2 witness: self-loop-only incoming weight at `A` in
`{"A": {"A": 2}}` is nonzero, so the row of `A` is untouched. -/
theorem ensure_rows_zero_in_weight_witness :
    ("A" ∈ extract_nodes [("A", [("A", (2:ℚ))])])
    ∧ in_weight [("A", [("A", (2:ℚ))])] "A" ≠ 0
    ∧ ensure_rows_positive (extract_nodes [("A", [("A", (2:ℚ))])])
          (make_square [("A", [("A", (2:ℚ))])]) "A" "A"
        = make_square [("A", [("A", (2:ℚ))])] "A" "A" :=
  ⟨by decide, by decide,
    (ensure_rows_zero_in_weight [("A", [("A", (2:ℚ))])] "A" "A"
      (by decide)).2 (by decide)⟩

/-- C5 counterexample: the identity matrix over two nodes is row-stochastic
and `rsp = 0` lies in `[0,1]`, yet the mixed matrix has a zero
(not strictly positive) entry: strict positivity fails at `rsp = 0`. -/
theorem integrate_rsp_zero_counterexample :
    (∀ t ∈ (["a", "b"] : List Node),
      row_sum ["a", "b"] (fun t2 s => if t2 = s then (1:ℚ) else 0) t = 1)
    ∧ (∀ t ∈ (["a", "b"] : List Node), ∀ s ∈ (["a", "b"] : List Node),
      0 ≤ (fun t2 s2 => if t2 = s2 then (1:ℚ) else 0) t s)
    ∧ ((0:ℚ) ≤ 0 ∧ (0:ℚ) ≤ 1)
    ∧ ¬ (0 < integrate_random_surfer ["a", "b"]
          (fun t s => if t = s then (1:ℚ) else 0) 0 "a" "b") := by
  refine ⟨by decide, by decide, by norm_num, by decide⟩

/-- C5 (amended): the random-surfer mixing computes
`m * (1 - rsp) + rsp / N` element-wise; for every row-stochastic input and
`rsp ∈ [0,1]` every row of the result still sums to `1`, and every entry is
strictly positive provided `rsp > 0` (at `rsp = 0` the matrix is returned
unchanged and may contain zeros). -/
theorem integrate_random_surfer_stochastic (nodes : List Node) (m : TMatrix)
    (rsp : ℚ) (hne : nodes ≠ [])
    (hrows : ∀ t ∈ nodes, row_sum nodes m t = 1)
    (hpos : ∀ t ∈ nodes, ∀ s ∈ nodes, 0 ≤ m t s)
    (_h0 : 0 ≤ rsp) (h1 : rsp ≤ 1) :
    (∀ t s, integrate_random_surfer nodes m rsp t s
        = m t s * (1 - rsp) + 1 / (nodes.length : ℚ) * rsp)
    ∧ (∀ t ∈ nodes, row_sum nodes (integrate_random_surfer nodes m rsp) t = 1)
    ∧ (0 < rsp → ∀ t ∈ nodes, ∀ s ∈ nodes,
        0 < integrate_random_surfer nodes m rsp t s) := by
  refine ⟨fun t s => rfl, ?_, ?_⟩
  · intro t ht
    exact integrate_row_sum nodes m rsp t hne (hrows t ht)
  · intro hr t ht s hs
    have hmn := hpos t ht s hs
    have hn : (0:ℚ) < ((nodes.length : ℚ)) := by
      exact_mod_cast List.length_pos.mpr hne
    show 0 < m t s * (1 - rsp) + 1 / (nodes.length : ℚ) * rsp
    have e1 : 0 ≤ m t s * (1 - rsp) := mul_nonneg hmn (by linarith)
    have e2 : 0 < 1 / ((nodes.length : ℚ)) * rsp :=
      mul_pos (by positivity) hr
    linarith

/-- C5 witness: the constant `1/2` matrix over two nodes, `rsp = 3/20`. -/
theorem integrate_random_surfer_stochastic_witness :
    ((["a", "b"] : List Node) ≠ []
      ∧ (∀ t ∈ (["a", "b"] : List Node),
          row_sum ["a", "b"] (fun _ _ => (1/2 : ℚ)) t = 1)
      ∧ (∀ t ∈ (["a", "b"] : List Node), ∀ s ∈ (["a", "b"] : List Node),
          0 ≤ (1/2 : ℚ))
      ∧ (0:ℚ) ≤ 3/20 ∧ (3/20:ℚ) ≤ 1)
    ∧ ((∀ t s, integrate_random_surfer ["a", "b"] (fun _ _ => (1/2 : ℚ))
          (3/20) t s = (1/2 : ℚ) * (1 - 3/20)
            + 1 / ((["a", "b"] : List Node).length : ℚ) * (3/20))
      ∧ (∀ t ∈ (["a", "b"] : List Node),
          row_sum ["a", "b"] (integrate_random_surfer ["a", "b"]
            (fun _ _ => (1/2 : ℚ)) (3/20)) t = 1)
      ∧ ((0:ℚ) < 3/20 → ∀ t ∈ (["a", "b"] : List Node),
          ∀ s ∈ (["a", "b"] : List Node),
          0 < integrate_random_surfer ["a", "b"]
            (fun _ _ => (1/2 : ℚ)) (3/20) t s)) :=
  ⟨⟨by decide, by decide, by decide, by decide, by decide⟩,
    integrate_random_surfer_stochastic ["a", "b"] (fun _ _ => (1/2 : ℚ))
      (3/20) (by decide) (by decide) (by decide) (by decide) (by decide)⟩

/-- C7 counterexample: on the chain `A→B→C` with default parameters the
returned values are not all within `1e-6` of `{A: 0.4744, B: 0.3412,
C: 0.1844}` (the actual deviations are about `1.2e-5`, `3.0e-5`,
`1.7e-5`). -/
theorem chain_tolerance_counterexample :
    ¬ (|result_value (power_iteration
          [("A", [("B", (1:ℚ))]), ("B", [("C", (1:ℚ))])]
          (3/20) (1/100000) 1000) "A" - 4744/10000| ≤ 1/1000000
      ∧ |result_value (power_iteration
          [("A", [("B", (1:ℚ))]), ("B", [("C", (1:ℚ))])]
          (3/20) (1/100000) 1000) "B" - 3412/10000| ≤ 1/1000000
      ∧ |result_value (power_iteration
          [("A", [("B", (1:ℚ))]), ("B", [("C", (1:ℚ))])]
          (3/20) (1/100000) 1000) "C" - 1844/10000| ≤ 1/1000000) := by
  decide

/-- C7 (amended): on the chain `A→B→C` with default parameters
(`rsp = 0.15`, `epsilon = 1e-5`, `max_iterations = 1000`) the solver
returns approximately `{A: 0.4744, B: 0.3412, C: 0.1844}`, each value
within tolerance `5e-5` (not `1e-6`). -/
theorem chain_default_approx :
    |result_value (power_iteration
        [("A", [("B", (1:ℚ))]), ("B", [("C", (1:ℚ))])]
        (3/20) (1/100000) 1000) "A" - 4744/10000| ≤ 1/20000
    ∧ |result_value (power_iteration
        [("A", [("B", (1:ℚ))]), ("B", [("C", (1:ℚ))])]
        (3/20) (1/100000) 1000) "B" - 3412/10000| ≤ 1/20000
    ∧ |result_value (power_iteration
        [("A", [("B", (1:ℚ))]), ("B", [("C", (1:ℚ))])]
        (3/20) (1/100000) 1000) "C" - 1844/10000| ≤ 1/20000 := by
  refine ⟨by decide, by decide, by decide⟩

/-- C8 counterexample: a run that converged (break fired) and a run that
exhausted its iteration cap without the test ever firing return the very
same series, so no flag distinguishing the two is observable in the
result. -/
theorem flag_not_observable_counterexample :
    power_iteration [("A", [("B", (1:ℚ))]), ("B", [("A", (1:ℚ))])]
        (3/20) (1/100000) 7
      = power_iteration [("A", [("B", (1:ℚ))]), ("B", [("A", (1:ℚ))])]
        (3/20) 0 7
    ∧ (power_iteration_run [("A", [("B", (1:ℚ))]), ("B", [("A", (1:ℚ))])]
        (3/20) (1/100000) 7).2 = true
    ∧ (power_iteration_run [("A", [("B", (1:ℚ))]), ("B", [("A", (1:ℚ))])]
        (3/20) 0 7).2 = false := by
  refine ⟨rfl, by decide, by decide⟩

/-- C8 (amended): `power_iteration` returns only the final state series;
whether convergence occurred or the iteration cap was hit is *not*
recoverable from the returned value: every candidate read-out function of
the result mis-reports the convergence flag on some run. -/
theorem convergence_flag_not_in_result (f : Except String St → Bool) :
    ∃ (g : Graph) (rsp eps : ℚ) (k : ℕ),
      f (power_iteration g rsp eps k) ≠ (power_iteration_run g rsp eps k).2 := by
  have heq : power_iteration [("A", [("B", (1:ℚ))]), ("B", [("A", (1:ℚ))])]
      (3/20) (1/100000) 7
      = power_iteration [("A", [("B", (1:ℚ))]), ("B", [("A", (1:ℚ))])]
        (3/20) 0 7 := rfl
  have hb1 : (power_iteration_run [("A", [("B", (1:ℚ))]), ("B", [("A", (1:ℚ))])]
      (3/20) (1/100000) 7).2 = true := by decide
  have hb2 : (power_iteration_run [("A", [("B", (1:ℚ))]), ("B", [("A", (1:ℚ))])]
      (3/20) 0 7).2 = false := by decide
  by_cases hf : f (power_iteration [("A", [("B", (1:ℚ))]), ("B", [("A", (1:ℚ))])]
      (3/20) (1/100000) 7) = true
  · refine ⟨[("A", [("B", (1:ℚ))]), ("B", [("A", (1:ℚ))])], 3/20, 0, 7, ?_⟩
    rw [← heq, hf, hb2]
    exact Bool.noConfusion
  · refine ⟨[("A", [("B", (1:ℚ))]), ("B", [("A", (1:ℚ))])], 3/20, 1/100000, 7, ?_⟩
    rw [hb1]
    exact hf

theorem loopF_pkg_eq (nodes : List Node) (m : TMatrix) (eps : ℚ) :
    ∀ (k : ℕ) (st : St), loopF nodes m eps k st = Pkg.loopF nodes m eps k st := by
  intro k
  induction k with
  | zero => intro st; rfl
  | succ k ih =>
    intro st
    simp only [loopF, Pkg.loopF]
    split
    · rfl
    · exact ih _

/-- C10: the two implementations (`src/pagerank.py` and
`src/src/pagerank/__init__.py`) compute the same function of the input
graph and configuration. -/
theorem power_iteration_pkg_eq (g : Graph) (rsp eps : ℚ)
    (max_iterations : ℕ) :
    power_iteration g rsp eps max_iterations
      = Pkg.power_iteration g rsp eps max_iterations := by
  have he : Pkg.extract_nodes = extract_nodes := rfl
  have hm : Pkg.make_square = make_square := rfl
  have hen : Pkg.ensure_rows_positive = ensure_rows_positive := rfl
  have hn : Pkg.normalize_rows = normalize_rows := rfl
  have hs : Pkg.start_state = start_state := rfl
  have hi : Pkg.integrate_random_surfer = integrate_random_surfer := rfl
  unfold power_iteration Pkg.power_iteration power_iteration_run
    pipeline_matrix
  rw [he, hm, hen, hn, hs, hi, loopF_pkg_eq]


/-! ### Witnesses -/

/-- C1 witness: the three-node chain with default parameters. -/
theorem power_iteration_distribution_witness :
    (valid_graph [("A", [("B", (1:ℚ))]), ("B", [("C", (1:ℚ))])]
      ∧ extract_nodes [("A", [("B", (1:ℚ))]), ("B", [("C", (1:ℚ))])] ≠ []
      ∧ (0:ℚ) ≤ 3/20 ∧ (3/20:ℚ) ≤ 1)
    ∧ ∃ st, power_iteration [("A", [("B", (1:ℚ))]), ("B", [("C", (1:ℚ))])]
          (3/20) (1/100000) 1000 = Except.ok st
        ∧ st.map Prod.fst = extract_nodes [("A", [("B", (1:ℚ))]), ("B", [("C", (1:ℚ))])]
        ∧ (∀ p ∈ st, 0 ≤ p.2)
        ∧ (st.map Prod.snd).sum = 1 :=
  ⟨⟨by decide, by decide, by decide, by decide⟩,
    power_iteration_distribution [("A", [("B", (1:ℚ))]), ("B", [("C", (1:ℚ))])]
      (3/20) (1/100000) 1000 (by decide) (by decide) (by decide) (by decide)⟩

/-- C3 witness: the two-node graph `{"A": {"B": 1}}` with default
parameters. -/
theorem power_iteration_loop_spec_witness :
    extract_nodes [("A", [("B", (1:ℚ))])] ≠ []
    ∧ (state_at [("A", [("B", (1:ℚ))])] (3/20) 0
          = (extract_nodes [("A", [("B", (1:ℚ))])]).map
              (fun x => (x, 1 / ((extract_nodes [("A", [("B", (1:ℚ))])]).length : ℚ)))
        ∧ ∃ T, power_iteration [("A", [("B", (1:ℚ))])] (3/20) (1/100000) 1000
              = Except.ok (state_at [("A", [("B", (1:ℚ))])] (3/20) T)
          ∧ T ≤ 1000
          ∧ (∀ j, 1 ≤ j → j < T →
              ¬ conv_at [("A", [("B", (1:ℚ))])] (3/20) (1/100000) j)
          ∧ ((∃ j, 1 ≤ j ∧ j ≤ 1000
                ∧ conv_at [("A", [("B", (1:ℚ))])] (3/20) (1/100000) j) →
              (1 ≤ T ∧ conv_at [("A", [("B", (1:ℚ))])] (3/20) (1/100000) T))
          ∧ ((¬ ∃ j, 1 ≤ j ∧ j ≤ 1000
                ∧ conv_at [("A", [("B", (1:ℚ))])] (3/20) (1/100000) j) →
              T = 1000)) :=
  ⟨by decide,
    power_iteration_loop_spec [("A", [("B", (1:ℚ))])] (3/20) (1/100000) 1000
      (by decide)⟩

/-- C4 witness: the empty graph errors with the `__start_state` message. -/
theorem power_iteration_error_iff_witness :
    extract_nodes ([] : Graph) = []
    ∧ power_iteration ([] : Graph) (3/20) (1/100000) 1000
        = Except.error error_message :=
  ⟨rfl, (power_iteration_error_iff ([] : Graph) (3/20) (1/100000) 1000).2 rfl⟩

/-- C6 witness: `rsp = 1` on the asymmetric graph `{"A": {"B": 1}}`. -/
theorem power_iteration_rsp_one_witness :
    extract_nodes [("A", [("B", (1:ℚ))])] ≠ []
    ∧ power_iteration [("A", [("B", (1:ℚ))])] 1 (1/100000) 1000
        = Except.ok ((extract_nodes [("A", [("B", (1:ℚ))])]).map
            (fun x => (x, 1 / ((extract_nodes [("A", [("B", (1:ℚ))])]).length : ℚ)))) :=
  ⟨by decide,
    power_iteration_rsp_one [("A", [("B", (1:ℚ))])] (1/100000) 1000 (by decide)⟩

/-- C8 witness: the read-out function that always answers `true` is wrong
on some run. -/
theorem convergence_flag_not_in_result_witness :
    ∃ (g : Graph) (rsp eps : ℚ) (k : ℕ),
      (fun _ : Except String St => true) (power_iteration g rsp eps k)
        ≠ (power_iteration_run g rsp eps k).2 :=
  convergence_flag_not_in_result (fun _ => true)

/-- C9 witness: `max_iterations = 0` on the graph `{"A": {"B": 1}}`. -/
theorem power_iteration_zero_iterations_witness :
    extract_nodes [("A", [("B", (1:ℚ))])] ≠ []
    ∧ power_iteration [("A", [("B", (1:ℚ))])] (3/20) (1/100000) 0
        = Except.ok ((extract_nodes [("A", [("B", (1:ℚ))])]).map
            (fun x => (x, 1 / ((extract_nodes [("A", [("B", (1:ℚ))])]).length : ℚ)))) :=
  ⟨by decide,
    power_iteration_zero_iterations [("A", [("B", (1:ℚ))])] (3/20) (1/100000)
      (by decide)⟩
